import Mathlib

/-!
Verification of the sliding-window rate limiter and retry policy.

Shallow embedding of `src/rate_limiter/rate_limit.py` (the
`SLIDING_WINDOW_LUA_SCRIPT` executed atomically by the store, and the
`RateLimit` wrapper) and `src/rate_limiter/retry.py` (`Retry.__call__`).

Timestamps are integers (milliseconds), as in the Lua script where
`now = time[1]*1000 + floor(time[2]/1000)`.  The store keeps a sorted set
per key whose members are `tostring(now)`; since the member string is a
function of the score, the stored state is faithfully a *set* of
timestamps (`Finset ℤ`): `ZADD` with an already-present member does not
create a new entry.  `EXPIRE` (step 4 of the script) only refreshes the
key's TTL and does not affect any claim below, so it is not modelled.
-/

/-- The decision returned by the Lua script: `{count, allowed, wait_ms}`. -/
structure Decision where
  count : ℕ
  allowed : Bool
  wait_ms : ℤ
deriving DecidableEq, Repr

/-- Pruning, `ZREMRANGEBYSCORE key 0 (now - window)`: removes exactly the elements
whose score lies in the inclusive range `[0, now - window]`. -/
def pruneState (window now : ℤ) (s : Finset ℤ) : Finset ℤ :=
  s.filter (fun ts => ¬ (0 ≤ ts ∧ ts ≤ now - window))

/-- State of the key after one script run: prune, then
`ZADD key now tostring(now)` (set insertion, deduplicating). -/
def stepState (window now : ℤ) (s : Finset ℤ) : Finset ℤ :=
  insert now (pruneState window now s)

theorem stepState_nonempty (window now : ℤ) (s : Finset ℤ) :
    (stepState window now s).Nonempty := by
  unfold stepState
  exact Finset.insert_nonempty _ _

/-- The smallest timestamp stored for the key, read by
`ZRANGE key 0 0 WITHSCORES` after the insertion. -/
def earliestOf (window now : ℤ) (s : Finset ℤ) : ℤ :=
  (stepState window now s).min' (stepState_nonempty window now s)

/-- One atomic run of `SLIDING_WINDOW_LUA_SCRIPT` with store-computed time
`now`: prune entries with score `≤ now - window`, record `now`, count,
and decide.  `window = window_seconds * 1000`, mirroring
`local window = tonumber(ARGV[1]) * 1000`. -/
def slidingWindowStep (windowSec limit now : ℤ) (s : Finset ℤ) :
    Finset ℤ × Decision :=
  let s2 := stepState (windowSec * 1000) now s
  if (s2.card : ℤ) ≤ limit then
    (s2, ⟨s2.card, true, 0⟩)
  else
    (s2, ⟨s2.card, false, windowSec * 1000 - (now - earliestOf (windowSec * 1000) now s)⟩)

/-- A sequence of admission checks on one key, at the store-observed times
in the list, threading the stored state; returns the decisions in order. -/
def runChecks (windowSec limit : ℤ) : List ℤ → Finset ℤ → List Decision
  | [], _ => []
  | t :: ts, s =>
    (slidingWindowStep windowSec limit t s).2 ::
      runChecks windowSec limit ts (slidingWindowStep windowSec limit t s).1

theorem runChecks_length (windowSec limit : ℤ) (ts : List ℤ) (s : Finset ℤ) :
    (runChecks windowSec limit ts s).length = ts.length := by
  induction ts generalizing s with
  | nil => rfl
  | cons t ts ih => simp [runChecks, ih]

theorem slidingWindowStep_fst (windowSec limit now : ℤ) (s : Finset ℤ) :
    (slidingWindowStep windowSec limit now s).1 = stepState (windowSec * 1000) now s := by
  unfold slidingWindowStep
  dsimp only
  split <;> rfl

theorem slidingWindowStep_count (windowSec limit now : ℤ) (s : Finset ℤ) :
    (slidingWindowStep windowSec limit now s).2.count
      = (stepState (windowSec * 1000) now s).card := by
  unfold slidingWindowStep
  dsimp only
  split <;> rfl

/-- The stored state after the checks in the list have run, starting from
state `s` (same threading as `runChecks`, keeping only the state). -/
def foldState (window : ℤ) (ts : List ℤ) (s : Finset ℤ) : Finset ℤ :=
  ts.foldl (fun st t => stepState window t st) s

theorem foldState_append (window : ℤ) (ts : List ℤ) (t : ℤ) (s : Finset ℤ) :
    foldState window (ts ++ [t]) s = stepState window t (foldState window ts s) := by
  simp [foldState]

/-- The decision at index `i` of a run counts the state produced by the
first `i + 1` checks. -/
theorem runChecks_getD_count (windowSec limit : ℤ) :
    ∀ (ts : List ℤ) (s : Finset ℤ) (i : ℕ), i < ts.length →
      ((runChecks windowSec limit ts s).getD i ⟨0, false, 0⟩).count
        = (foldState (windowSec * 1000) (ts.take (i + 1)) s).card := by
  intro ts
  induction ts with
  | nil => intro s i hi; simp at hi
  | cons t ts ih =>
    intro s i hi
    cases i with
    | zero =>
      simp [runChecks, foldState, slidingWindowStep_count]
    | succ i =>
      have hi' : i < ts.length := by simpa using hi
      have := ih (slidingWindowStep windowSec limit t s).1 i hi'
      simpa [runChecks, foldState, slidingWindowStep_fst] using this

theorem mem_stepState (window now x : ℤ) (s : Finset ℤ) :
    x ∈ stepState window now s ↔ x = now ∨ (x ∈ s ∧ ¬ (0 ≤ x ∧ x ≤ now - window)) := by
  simp [stepState, pruneState, Finset.mem_insert, Finset.mem_filter, and_comm]

/-- State characterization: after a strictly increasing, non-negative run
of checks ending at time `u`, the stored state holds exactly the check
times within `window` of `u`. -/
theorem mem_foldState (window : ℤ) (hw : 0 < window) :
    ∀ (l : List ℤ) (u : ℤ), (∀ x ∈ l ++ [u], 0 ≤ x) →
      (l ++ [u]).Pairwise (· < ·) →
      ∀ x, (x ∈ foldState window (l ++ [u]) ∅ ↔ (x ∈ l ++ [u] ∧ u - x < window)) := by
  intro l
  induction l using List.reverseRecOn with
  | nil =>
    intro u hnn hpair x
    constructor
    · intro hx
      rw [show ([] ++ [u] : List ℤ) = [] ++ [u] from rfl] at *
      simp only [List.nil_append, foldState, List.foldl_cons, List.foldl_nil] at hx
      rw [mem_stepState] at hx
      rcases hx with rfl | ⟨hx, _⟩
      · simp; omega
      · simp at hx
    · intro ⟨hx, _⟩
      simp only [List.nil_append, List.mem_singleton] at hx
      subst hx
      simp only [List.nil_append, foldState, List.foldl_cons, List.foldl_nil]
      rw [mem_stepState]
      exact Or.inl rfl
  | append_singleton l v ihl =>
    intro u hnn hpair x
    have hparts := List.pairwise_append.mp hpair
    have hpair' : (l ++ [v]).Pairwise (· < ·) := hparts.1
    have hlt : ∀ y ∈ l ++ [v], y < u := by
      intro y hy
      exact hparts.2.2 y hy u (List.mem_singleton_self u)
    have hnn' : ∀ y ∈ l ++ [v], 0 ≤ y := by
      intro y hy
      exact hnn y (List.mem_append.mpr (Or.inl hy))
    have hfold := foldState_append window (l ++ [v]) u (∅ : Finset ℤ)
    rw [hfold, mem_stepState]
    have ihx := ihl v hnn' hpair' x
    constructor
    · rintro (rfl | ⟨hx, hkeep⟩)
      · exact ⟨List.mem_append.mpr (Or.inr (List.mem_singleton_self x)), by omega⟩
      · have hx' := ihx.mp hx
        have hx0 : 0 ≤ x := hnn' x hx'.1
        exact ⟨List.mem_append.mpr (Or.inl hx'.1), by omega⟩
    · rintro ⟨hx, hwin⟩
      rcases List.mem_append.mp hx with hx' | hx'
      · right
        have hx0 : 0 ≤ x := hnn' x hx'
        have hxu : x < u := hlt x hx'
        refine ⟨ihx.mpr ⟨hx', ?_⟩, by omega⟩
        have hvu : v < u := hlt v (List.mem_append.mpr (Or.inr (List.mem_singleton_self v)))
        have hxv : x ≤ v := by
          rcases List.mem_append.mp hx' with h | h
          · have := (List.pairwise_append.mp hpair').2.2
            exact le_of_lt (this x h v (List.mem_singleton_self v))
          · exact le_of_eq (List.mem_singleton.mp h)
        omega
      · exact Or.inl (List.mem_singleton.mp hx')

theorem foldState_card (window : ℤ) (hw : 0 < window) (l : List ℤ) (u : ℤ)
    (hnn : ∀ x ∈ l ++ [u], 0 ≤ x) (hpair : (l ++ [u]).Pairwise (· < ·)) :
    (foldState window (l ++ [u]) ∅).card
      = (l ++ [u]).countP (fun x => decide (u - x < window)) := by
  have hset : foldState window (l ++ [u]) ∅
      = ((l ++ [u]).filter (fun x => decide (u - x < window))).toFinset := by
    ext x
    rw [mem_foldState window hw l u hnn hpair x, List.mem_toFinset, List.mem_filter]
    simp
  rw [hset]
  have hnd : (l ++ [u]).Nodup := hpair.imp (fun h => ne_of_lt h)
  have hnd2 : ((l ++ [u]).filter (fun x => decide (u - x < window))).Nodup :=
    hnd.filter _
  rw [List.toFinset_card_of_nodup hnd2, List.countP_eq_length_filter]

/-- C1 (amended): for strictly increasing, non-negative check times
`t_1 < … < t_n` on one key, the count returned by the atomic window
operation at check `i` equals `|{j ≤ i : t_i − t_j < window_ms}|`. -/
theorem runChecks_count_eq_inWindow (windowSec limit : ℤ) (hw : 1 ≤ windowSec)
    (ts : List ℤ) (hnn : ∀ t ∈ ts, 0 ≤ t) (hsort : ts.Pairwise (· < ·))
    (i : ℕ) (hi : i < ts.length) :
    ((runChecks windowSec limit ts ∅).getD i ⟨0, false, 0⟩).count
      = (ts.take (i + 1)).countP
          (fun tj => decide (ts.getD i 0 - tj < windowSec * 1000)) := by
  have hwpos : 0 < windowSec * 1000 := by omega
  rw [runChecks_getD_count windowSec limit ts ∅ i hi]
  have hgetD : ts.getD i 0 = ts.get ⟨i, hi⟩ := by
    simp [List.getD_eq_getElem?_getD, List.getElem?_eq_getElem hi]
  have htake : ts.take (i + 1) = ts.take i ++ [ts.getD i 0] := by
    rw [List.take_succ, List.getElem?_eq_getElem hi, hgetD]
    rfl
  have hsub : (ts.take (i + 1)).Sublist ts := List.take_sublist _ _
  have hnn' : ∀ x ∈ ts.take i ++ [ts.getD i 0], 0 ≤ x := by
    rw [← htake]
    intro x hx
    exact hnn x (hsub.mem hx)
  have hpair' : (ts.take i ++ [ts.getD i 0]).Pairwise (· < ·) := by
    rw [← htake]
    exact hsort.sublist hsub
  rw [htake, foldState_card (windowSec * 1000) hwpos (ts.take i) (ts.getD i 0) hnn' hpair']

/-- C1 counterexample: two checks observed by the store at the same
millisecond (a non-decreasing sequence) — the second check's count is 1,
because `ZADD` with member `tostring(now)` does not add a second entry,
while the claim's formula `|{j ≤ i : t_i − t_j < window_ms}|` gives 2. -/
theorem runChecks_count_eq_inWindow_cex :
    ([0, 0] : List ℤ).Pairwise (· ≤ ·)
    ∧ (∀ t ∈ ([0, 0] : List ℤ), (0 : ℤ) ≤ t)
    ∧ ¬ (((runChecks 1 5 [0, 0] ∅).getD 1 ⟨0, false, 0⟩).count
        = (([0, 0] : List ℤ).take (1 + 1)).countP
            (fun tj => decide (([0, 0] : List ℤ).getD 1 0 - tj < 1 * 1000))) := by
  decide

/-- C1 witness: four strictly increasing check times, window 1 s; the
third check counts the three checks within 1000 ms of `t_3 = 998`. -/
theorem runChecks_count_eq_inWindow_witness :
    ((runChecks 1 10 [0, 500, 998, 2000] ∅).getD 2 ⟨0, false, 0⟩).count
      = (([0, 500, 998, 2000] : List ℤ).take (2 + 1)).countP
          (fun tj => decide (([0, 500, 998, 2000] : List ℤ).getD 2 0 - tj < 1 * 1000)) :=
  runChecks_count_eq_inWindow 1 10 (by decide) [0, 500, 998, 2000]
    (by decide) (by decide) 2 (by decide)

/-- C2 (code bug): 31 admission checks with `limit = 30`, `window = 1 s`,
all observed by the store at the same millisecond `now = 0` — the script
admits every one of them (each sees `count = 1`, since the sorted-set
member `tostring(now)` deduplicates same-millisecond entries), instead of
admitting exactly 30 and denying 1 with `wait_ms` close to 1000. -/
theorem limit_not_enforced_at_same_ms :
    (runChecks 1 30 (List.replicate 31 0) ∅).length = 31
    ∧ (runChecks 1 30 (List.replicate 31 0) ∅).countP (fun d => d.allowed) = 31 := by
  decide

theorem slidingWindowStep_eq (windowSec limit now : ℤ) (s : Finset ℤ) :
    slidingWindowStep windowSec limit now s
      = if ((stepState (windowSec * 1000) now s).card : ℤ) ≤ limit
        then (stepState (windowSec * 1000) now s,
              ⟨(stepState (windowSec * 1000) now s).card, true, 0⟩)
        else (stepState (windowSec * 1000) now s,
              ⟨(stepState (windowSec * 1000) now s).card, false,
               windowSec * 1000 - (now - earliestOf (windowSec * 1000) now s)⟩) := rfl

/-- C3: the decision of one atomic window operation: `allowed = true` with
`wait_ms = 0` exactly when the post-insertion count is at most `limit`;
otherwise `allowed = false` and
`wait_ms = max 0 (window_ms − (now − earliest))`, `earliest` being the
smallest timestamp remaining for the key (the `max` is a no-op because
pruning leaves only in-window timestamps). -/
theorem slidingWindowStep_decision (windowSec limit now : ℤ) (s : Finset ℤ)
    (hw : 1 ≤ windowSec) (hs : ∀ x ∈ s, 0 ≤ x) :
    (((slidingWindowStep windowSec limit now s).2.allowed = true
        ∧ (slidingWindowStep windowSec limit now s).2.wait_ms = 0)
      ↔ (((slidingWindowStep windowSec limit now s).2.count : ℤ) ≤ limit))
    ∧ (limit < ((slidingWindowStep windowSec limit now s).2.count : ℤ) →
        (slidingWindowStep windowSec limit now s).2.allowed = false
        ∧ (slidingWindowStep windowSec limit now s).2.wait_ms
            = max 0 (windowSec * 1000 - (now - earliestOf (windowSec * 1000) now s))) := by
  have hwait : 0 < windowSec * 1000 - (now - earliestOf (windowSec * 1000) now s) := by
    have hm : earliestOf (windowSec * 1000) now s ∈ stepState (windowSec * 1000) now s :=
      Finset.min'_mem _ (stepState_nonempty _ _ _)
    rw [mem_stepState] at hm
    rcases hm with h | ⟨hmem, hk⟩
    · omega
    · have := hs _ hmem
      omega
  rw [slidingWindowStep_eq]
  by_cases hc : ((stepState (windowSec * 1000) now s).card : ℤ) ≤ limit
  · rw [if_pos hc]
    refine ⟨⟨fun _ => hc, fun _ => ⟨rfl, rfl⟩⟩, fun hlt => absurd hc (not_le.mpr hlt)⟩
  · rw [if_neg hc]
    refine ⟨⟨fun h => absurd h.1 (by simp), fun h => absurd h hc⟩,
      fun _ => ⟨rfl, (max_eq_right (le_of_lt hwait)).symm⟩⟩

/-- C3 witness: `window = 10 s`, `limit = 1`, a second check at
`now = 5000` against the state `{0}` is denied with `wait_ms = 5000`. -/
theorem slidingWindowStep_decision_witness :
    ((((slidingWindowStep 10 1 5000 {0}).2.allowed = true
        ∧ (slidingWindowStep 10 1 5000 {0}).2.wait_ms = 0)
      ↔ (((slidingWindowStep 10 1 5000 {0}).2.count : ℤ) ≤ 1))
    ∧ (1 < (((slidingWindowStep 10 1 5000 {0}).2.count : ℤ)) →
        (slidingWindowStep 10 1 5000 {0}).2.allowed = false
        ∧ (slidingWindowStep 10 1 5000 {0}).2.wait_ms
            = max 0 (10 * 1000 - (5000 - earliestOf (10 * 1000) 5000 {0})))) :=
  slidingWindowStep_decision 10 1 5000 {0} (by decide) (by decide)

theorem stepState_idem (window now : ℤ) (hw : 0 < window) (s : Finset ℤ) :
    stepState window now (stepState window now s) = stepState window now s := by
  unfold stepState pruneState
  rw [Finset.filter_insert, if_pos (by omega), Finset.filter_filter]
  simp only [Finset.insert_idem]
  congr 1
  apply Finset.filter_congr
  intro x _
  tauto

/-- C9: the stored window state keys entries by the millisecond string
`tostring(now)`, so a check whose store-computed time equals an
already-recorded timestamp adds no entry: re-running the script at the
same `now` leaves the state unchanged and returns the same count. -/
theorem same_millisecond_no_new_entry (windowSec limit now : ℤ) (s : Finset ℤ)
    (hw : 1 ≤ windowSec) :
    (slidingWindowStep windowSec limit now
        ((slidingWindowStep windowSec limit now s).1)).1
      = (slidingWindowStep windowSec limit now s).1
    ∧ (slidingWindowStep windowSec limit now
        ((slidingWindowStep windowSec limit now s).1)).2.count
      = (slidingWindowStep windowSec limit now s).2.count := by
  have hwpos : 0 < windowSec * 1000 := by omega
  constructor
  · rw [slidingWindowStep_fst, slidingWindowStep_fst,
      stepState_idem (windowSec * 1000) now hwpos s]
  · rw [slidingWindowStep_count, slidingWindowStep_count, slidingWindowStep_fst,
      stepState_idem (windowSec * 1000) now hwpos s]

/-- C9 witness: a second check at the same millisecond `now = 4` after a
first one leaves the state and the returned count unchanged. -/
theorem same_millisecond_no_new_entry_witness :
    (slidingWindowStep 1 5 4 ((slidingWindowStep 1 5 4 ∅).1)).1
      = (slidingWindowStep 1 5 4 ∅).1
    ∧ (slidingWindowStep 1 5 4 ((slidingWindowStep 1 5 4 ∅).1)).2.count
      = (slidingWindowStep 1 5 4 ∅).2.count :=
  same_millisecond_no_new_entry 1 5 4 ∅ (by decide)

/-- Observable effects of `RateLimit.wait_until_allowed`, in order. -/
inductive LimiterEvent where
  | check (allowed : Bool) (wait_ms : ℤ)
  | sleep (seconds : ℚ)
deriving DecidableEq, Repr

def LimiterEvent.isCheck : LimiterEvent → Bool
  | .check _ _ => true
  | .sleep _ => false

/-- Embedding of `RateLimit.is_allowed`: runs the Lua script once and returns
`(bool(allowed), int(wait_ms))`, threading the store state. -/
def rateLimit_is_allowed (windowSec limit now : ℤ) (s : Finset ℤ) :
    Finset ℤ × Bool × ℤ :=
  ((slidingWindowStep windowSec limit now s).1,
   (slidingWindowStep windowSec limit now s).2.allowed,
   (slidingWindowStep windowSec limit now s).2.wait_ms)

/-- Embedding of `RateLimit.wait_until_allowed`: one `is_allowed` call; if denied,
`asyncio.sleep(wait_ms / 1000)` and return; no re-check after waking. -/
def wait_until_allowed (windowSec limit now : ℤ) (s : Finset ℤ) :
    Finset ℤ × List LimiterEvent :=
  let r := rateLimit_is_allowed windowSec limit now s
  if r.2.1 then
    (r.1, [.check r.2.1 r.2.2])
  else
    (r.1, [.check r.2.1 r.2.2, .sleep ((r.2.2 : ℚ) / 1000)])

/-- C7: every `wait_until_allowed` call performs exactly one admission
check, the first event; when denied it sleeps `wait_ms / 1000` seconds
once and then returns with no further admission check; when allowed it
returns with no sleep. -/
theorem wait_until_allowed_single_check (windowSec limit now : ℤ) (s : Finset ℤ) :
    (wait_until_allowed windowSec limit now s).2
      = LimiterEvent.check (slidingWindowStep windowSec limit now s).2.allowed
          (slidingWindowStep windowSec limit now s).2.wait_ms ::
        (if (slidingWindowStep windowSec limit now s).2.allowed then []
         else [LimiterEvent.sleep
                (((slidingWindowStep windowSec limit now s).2.wait_ms : ℚ) / 1000)])
    ∧ ((wait_until_allowed windowSec limit now s).2.countP LimiterEvent.isCheck) = 1 := by
  unfold wait_until_allowed rateLimit_is_allowed
  dsimp only
  by_cases h : (slidingWindowStep windowSec limit now s).2.allowed
  · rw [if_pos h, if_pos h]
    simp [List.countP, List.countP.go, LimiterEvent.isCheck]
  · rw [if_neg h, if_neg h]
    simp [List.countP, List.countP.go, LimiterEvent.isCheck]

/-- The configuration of a `RateLimit` instance. -/
structure RateLimitConfig where
  limit : ℤ
  window : ℤ
deriving DecidableEq, Repr

/-- Construction, `RateLimit.__post_init__` from the source: it only registers the Lua
script with the client (`self.redis.register_script(...)`); it performs no
validation of `limit` or `window`, so construction always succeeds. -/
def rateLimit_construct (limit window : ℤ) : Except String RateLimitConfig :=
  Except.ok ⟨limit, window⟩

/-- C8 (code bug): constructing a limiter with `window_seconds = 0` is not
rejected — `__post_init__` validates nothing — and the resulting limiter
is usable: with `window = 0` every check prunes all entries with scores in
`[0, now]` before inserting, so every check sees `count = 1` and is
admitted. -/
theorem construct_window_zero_succeeds :
    rateLimit_construct 1 0 = Except.ok ⟨1, 0⟩
    ∧ (runChecks 0 1 [3, 7, 7] ∅).countP (fun d => d.allowed) = 3 := by
  constructor
  · rfl
  · decide

/-!
Retry policy (`src/rate_limiter/retry.py`).

The wrapped target is modelled attempt-indexed: `fn a` is what the target
does on its `a`-th invocation (attempts are numbered from 1, as in
`for attempt in range(1, self.retries + 1)`).  Failures are values of an
abstract type `E`; `retry_on` is the membership test of the configured
`retry_on_exceptions` tuple (Python matches by `isinstance`).  A failure
not in the set propagates unchanged whether it is caught by the
`except Exception: raise` clause or not caught at all.  `delay` is a
Python float starting from the integer `backoff_ms`; it is modelled as an
exact rational.  Recorded sleep durations are in milliseconds (the code
passes `delay / 1000` seconds to `asyncio.sleep`).
-/

/-- One invocation of the wrapped target either returns a value or raises. -/
inductive Outcome (T E : Type) where
  | success : T → Outcome T E
  | failure : E → Outcome T E
deriving DecidableEq, Repr

/-- How one call of the wrapped operation terminates. -/
inductive RetryResult (T E : Type) where
  | ok : T → RetryResult T E
  | fatal : E → RetryResult T E
  | exhausted : Option E → RetryResult T E
deriving DecidableEq, Repr

/-- The observable run of one wrapped call: its terminal result, the sleep
durations in milliseconds in order, and how many times the target ran.
`RetryResult.exhausted c` stands for `raise RetryLimitReachedError(...)
from c` (`RetryLimitReachedError` lives in `rate_limiter/exceptions.py`);
its payload is the `last_exception` cause. -/
structure RunTrace (T E : Type) where
  result : RetryResult T E
  sleeps : List ℚ
  calls : ℕ
deriving DecidableEq, Repr

/-- The `Retry` dataclass configuration. -/
structure Retry (E : Type) where
  retries : ℤ := 3
  backoff_ms : ℤ := 10
  backoff_factor : ℚ := 1
  retry_on : E → Bool

/-- The loop body of `Retry.__call__`'s `wrapper`: `remaining` attempts
are left (the current one included), the current attempt is numbered
`attempt`, `delay` is the current backoff in ms, `last` the last transient
failure seen.  A transient failure on a non-final attempt sleeps `delay`
and multiplies it by the factor; on the final attempt the loop ends and
the exhaustion error is raised from the failure. -/
def retryGo {T E : Type} (tr : E → Bool) (f : ℚ) (fn : ℕ → Outcome T E) :
    ℕ → ℕ → ℚ → Option E → RunTrace T E
  | 0, _, _, last => ⟨.exhausted last, [], 0⟩
  | remaining + 1, attempt, delay, _ =>
    match fn attempt with
    | .success v => ⟨.ok v, [], 1⟩
    | .failure e =>
      if tr e then
        if remaining = 0 then ⟨.exhausted (some e), [], 1⟩
        else
          let rest := retryGo tr f fn remaining (attempt + 1) (delay * f) (some e)
          ⟨rest.result, delay :: rest.sleeps, rest.calls + 1⟩
      else ⟨.fatal e, [], 1⟩

/-- One call of the operation wrapped by `Retry.__call__`: attempts run
from 1 with `delay = backoff_ms`; `range(1, retries + 1)` is empty when
`retries ≤ 0`. -/
def Retry.run {T E : Type} (r : Retry E) (fn : ℕ → Outcome T E) : RunTrace T E :=
  retryGo r.retry_on r.backoff_factor fn r.retries.toNat 1 (r.backoff_ms : ℚ) none

theorem range_succ_map_geom (delay f : ℚ) (m : ℕ) :
    (List.range (m + 1)).map (fun i => delay * f ^ i)
      = delay :: (List.range m).map (fun i => delay * f * f ^ i) := by
  rw [List.range_succ_eq_map, List.map_cons, List.map_map]
  simp only [pow_zero, mul_one]
  congr 1
  refine List.map_congr_left ?_
  intro i _
  show delay * f ^ (i + 1) = delay * f * f ^ i
  rw [pow_succ]
  ring

theorem retryGo_succ_step {T E : Type} (tr : E → Bool) (f : ℚ) (fn : ℕ → Outcome T E)
    (m attempt : ℕ) (delay : ℚ) (last : Option E) (e : E) (hm : m ≠ 0)
    (hfe : fn attempt = .failure e) (hte : tr e = true) :
    retryGo tr f fn (m + 1) attempt delay last
      = ⟨(retryGo tr f fn m (attempt + 1) (delay * f) (some e)).result,
         delay :: (retryGo tr f fn m (attempt + 1) (delay * f) (some e)).sleeps,
         (retryGo tr f fn m (attempt + 1) (delay * f) (some e)).calls + 1⟩ := by
  obtain ⟨k, rfl⟩ : ∃ k, m = k + 1 := ⟨m - 1, by omega⟩
  simp [retryGo, hfe, hte]

theorem retryGo_all_fail {T E : Type} (tr : E → Bool) (f : ℚ) (fn : ℕ → Outcome T E)
    (err : ℕ → E) (hfn : ∀ a, fn a = .failure (err a))
    (htr : ∀ a, tr (err a) = true) :
    ∀ (m attempt : ℕ) (delay : ℚ) (last : Option E),
      retryGo tr f fn (m + 1) attempt delay last
        = ⟨.exhausted (some (err (attempt + m))),
           (List.range m).map (fun i => delay * f ^ i), m + 1⟩ := by
  intro m
  induction m with
  | zero =>
    intro attempt delay last
    simp [retryGo, hfn attempt, htr attempt]
  | succ m ih =>
    intro attempt delay last
    rw [retryGo_succ_step tr f fn (m + 1) attempt delay last (err attempt)
        (Nat.succ_ne_zero m) (hfn attempt) (htr attempt),
      ih (attempt + 1) (delay * f) (some (err attempt)),
      range_succ_map_geom, show attempt + (m + 1) = attempt + 1 + m by omega]

theorem retryGo_succeeds {T E : Type} (tr : E → Bool) (f : ℚ) (fn : ℕ → Outcome T E)
    (err : ℕ → E) (v : T) :
    ∀ (j remaining attempt : ℕ) (delay : ℚ) (last : Option E),
      j < remaining →
      (∀ a, attempt ≤ a → a < attempt + j →
        fn a = .failure (err a) ∧ tr (err a) = true) →
      fn (attempt + j) = .success v →
      retryGo tr f fn remaining attempt delay last
        = ⟨.ok v, (List.range j).map (fun i => delay * f ^ i), j + 1⟩ := by
  intro j
  induction j with
  | zero =>
    intro remaining attempt delay last hj hfail hsucc
    match remaining, hj with
    | m + 1, _ =>
      simp only [Nat.add_zero] at hsucc
      simp [retryGo, hsucc]
  | succ j ih =>
    intro remaining attempt delay last hj hfail hsucc
    match remaining, hj with
    | m + 1, hj =>
      have hm : j < m := by omega
      have hm0 : m ≠ 0 := by omega
      have hfa := hfail attempt (le_refl attempt) (by omega)
      have hrest := ih m (attempt + 1) (delay * f) (some (err attempt)) hm
        (fun a h1 h2 => hfail a (by omega) (by omega))
        (by rw [show attempt + 1 + j = attempt + (j + 1) by omega]; exact hsucc)
      rw [retryGo_succ_step tr f fn m attempt delay last (err attempt) hm0 hfa.1 hfa.2,
        hrest, range_succ_map_geom]

/-- C4: if the target raises a transient failure on every attempt and
`retries = N ≥ 1`, the target runs exactly `N` times, exactly `N − 1`
sleeps occur, and the call raises the retry-exhaustion error whose cause
is the failure observed on the last attempt. -/
theorem retry_exhaustion {T E : Type} (r : Retry E) (fn : ℕ → Outcome T E)
    (err : ℕ → E) (hfn : ∀ a, fn a = .failure (err a))
    (htr : ∀ a, r.retry_on (err a) = true) (hN : 1 ≤ r.retries) :
    (r.run fn).calls = r.retries.toNat
    ∧ (r.run fn).sleeps.length = r.retries.toNat - 1
    ∧ (r.run fn).result = .exhausted (some (err r.retries.toNat)) := by
  obtain ⟨m, hm⟩ : ∃ m, r.retries.toNat = m + 1 := ⟨r.retries.toNat - 1, by omega⟩
  unfold Retry.run
  rw [hm, retryGo_all_fail r.retry_on r.backoff_factor fn err hfn htr m 1
    (r.backoff_ms : ℚ) none]
  refine ⟨rfl, by simp, ?_⟩
  rw [show 1 + m = m + 1 by omega]

/-- C4 witness: `retries = 2`, target always fails transiently: 2 calls,
1 sleep, exhaustion error caused by the failure of attempt 2. -/
theorem retry_exhaustion_witness :
    ((Retry.mk 2 10 2 (fun _ => true) : Retry ℕ).run
        (fun a => (Outcome.failure a : Outcome ℕ ℕ))).calls = (2 : ℤ).toNat
    ∧ ((Retry.mk 2 10 2 (fun _ => true) : Retry ℕ).run
        (fun a => (Outcome.failure a : Outcome ℕ ℕ))).sleeps.length = (2 : ℤ).toNat - 1
    ∧ ((Retry.mk 2 10 2 (fun _ => true) : Retry ℕ).run
        (fun a => (Outcome.failure a : Outcome ℕ ℕ))).result
        = .exhausted (some (id (2 : ℤ).toNat)) :=
  retry_exhaustion _ _ id (fun _ => rfl) (fun _ => rfl) (by decide)

/-- C5: if the target fails transiently on the first `k < retries`
attempts and succeeds on attempt `k + 1`, then exactly `k` sleeps occur,
with delays `backoff_ms, backoff_ms·factor, …, backoff_ms·factor^(k−1)`
(the factor is applied after each non-final retry sleep), and the wrapped
call returns the success value unchanged. -/
theorem retry_success_path {T E : Type} (r : Retry E) (fn : ℕ → Outcome T E)
    (err : ℕ → E) (v : T) (k : ℕ) (hk : (k : ℤ) < r.retries)
    (hfail : ∀ a, 1 ≤ a → a ≤ k → fn a = .failure (err a))
    (htr : ∀ a, 1 ≤ a → a ≤ k → r.retry_on (err a) = true)
    (hsucc : fn (k + 1) = .success v) :
    r.run fn = ⟨.ok v,
      (List.range k).map (fun i => (r.backoff_ms : ℚ) * r.backoff_factor ^ i),
      k + 1⟩ := by
  unfold Retry.run
  refine retryGo_succeeds r.retry_on r.backoff_factor fn err v k r.retries.toNat 1
    (r.backoff_ms : ℚ) none (by omega) ?_ ?_
  · intro a h1 h2
    exact ⟨hfail a h1 (by omega), htr a h1 (by omega)⟩
  · rw [show 1 + k = k + 1 by omega]
    exact hsucc

/-- C5 witness: `retries = 3, backoff_ms = 10, factor = 2`, two transient
failures then success: sleeps `[10, 20]` ms, result 42, three calls. -/
theorem retry_success_path_witness :
    (Retry.mk 3 10 2 (fun _ => true) : Retry ℕ).run
        (fun a => if a ≤ 2 then (Outcome.failure a : Outcome ℕ ℕ)
                  else Outcome.success 42)
      = ⟨.ok 42, (List.range 2).map (fun i => ((10 : ℤ) : ℚ) * (2 : ℚ) ^ i), 2 + 1⟩ :=
  retry_success_path _ _ id 42 2 (by decide)
    (fun a _ h2 => by simp [h2]) (fun _ _ _ => rfl) (by rfl)

/-- C6: a failure whose kind is not in the transient set (in particular,
any failure when the set is empty) propagates unchanged after exactly one
invocation of the target, with zero sleeps. -/
theorem retry_fatal_short_circuit {T E : Type} (r : Retry E) (fn : ℕ → Outcome T E)
    (e : E) (hr : 1 ≤ r.retries) (hf : fn 1 = .failure e)
    (ht : r.retry_on e = false) :
    r.run fn = ⟨.fatal e, [], 1⟩ := by
  obtain ⟨m, hm⟩ : ∃ m, r.retries.toNat = m + 1 := ⟨r.retries.toNat - 1, by omega⟩
  unfold Retry.run
  rw [hm]
  simp [retryGo, hf, ht]

/-- C6 witness: empty transient set (`retry_on_exceptions = ()`), target
fails once: one call, no sleeps, the failure re-raised unchanged. -/
theorem retry_fatal_short_circuit_witness :
    (Retry.mk 3 10 1 (fun _ => false) : Retry ℕ).run
        (fun _ => (Outcome.failure 7 : Outcome ℕ ℕ))
      = ⟨.fatal 7, [], 1⟩ :=
  retry_fatal_short_circuit _ _ 7 (by decide) rfl rfl

/-- C10: with `retries ≤ 0` the loop `for attempt in range(1, retries + 1)`
never runs: the target is not invoked, nothing sleeps, and the wrapped
call raises the exhaustion error with cause `None`. -/
theorem retry_nonpositive_retries {T E : Type} (r : Retry E)
    (fn : ℕ → Outcome T E) (h : r.retries ≤ 0) :
    r.run fn = ⟨.exhausted none, [], 0⟩ := by
  unfold Retry.run
  rw [Int.toNat_of_nonpos h]
  rfl

/-- C10 witness: `retries = 0` raises the exhaustion error with cause
`None`, zero calls, zero sleeps, even for an always-succeeding target. -/
theorem retry_nonpositive_retries_witness :
    (Retry.mk 0 10 1 (fun _ => true) : Retry ℕ).run
        (fun _ => (Outcome.success 5 : Outcome ℕ ℕ))
      = ⟨.exhausted none, [], 0⟩ :=
  retry_nonpositive_retries _ _ (by decide)
